import Mathlib

/-!
# Tiled: object-type catalog reader/writer and object properties dialog

A shallow embedding of `src/tiled/objecttypes.cpp` and
`src/tiled/objectpropertiesdialog.cpp`, with theorems about the embedded code.

Conventions of the embedding:

* `QString` is `String`; character-level tests go through `String.data`.
* `Properties` (a `QMap<QString, QString>`) is an association list ordered by
  key, keys compared by their UTF-16 code units.
* An XML document is the sequence of tokens `QXmlStreamReader` reports for it;
  `QXmlStreamWriter` is embedded as producing that token sequence, including
  the whitespace-only `Characters` tokens that auto-formatting gives rise to,
  and with the line endings of element text normalised as the reader reports
  them. Escaping and encodings happen below this level and are not modelled.
* Every `while` loop whose body consumes tokens through a callee is a
  fuel-indexed function returning `Option`; `none` means the fuel ran out.
  Callers supply `device.length + 1` units, and the adequacy lemmas show that
  this is always enough.
-/

namespace Tiled

/-! ## Data model -/

/-- Modelled from the spec: `Properties` is declared in `properties.h`, which
is not among the sources. The spec calls it an ordered string-to-string
mapping and the code uses it through the `QMap` interface; it is kept as an
association list, which `insert` keeps ordered by key, as `QMap` iterates. -/
structure Properties where
  entries : List (String × String)
deriving DecidableEq, Repr

namespace Properties

/-- The empty mapping. -/
def empty : Properties := ⟨[]⟩

/-- `QMap::isEmpty`. -/
def isEmpty (p : Properties) : Bool := p.entries.isEmpty

/-- The keys of the mapping, in iteration order. -/
def keys (p : Properties) : List String := p.entries.map Prod.fst

/-- `QMap::value` as an option: the value stored under `k`, if any. -/
def find? (p : Properties) (k : String) : Option String := p.entries.lookup k

/-- The UTF-16 code units of a character, as a `QString` stores it: one unit
below `0x10000`, a surrogate pair above. -/
def utf16 (c : Char) : List Nat :=
  if c.toNat < 0x10000 then [c.toNat]
  else [0xD800 + (c.toNat - 0x10000) / 0x400, 0xDC00 + (c.toNat - 0x10000) % 0x400]

/-- The UTF-16 code units of a string. -/
def utf16Units (s : String) : List Nat := (s.data.map utf16).flatten

/-- The key order of the map, `QString::operator<`: the lexicographic order
of the UTF-16 code units. -/
def keyLess (a b : String) : Bool := decide (utf16Units a < utf16Units b)

/-- Ordered insertion into an association list; an existing entry for the key
is replaced. -/
def insertEntry (k v : String) : List (String × String) → List (String × String)
  | [] => [(k, v)]
  | (k', v') :: rest =>
    if keyLess k k' then (k, v) :: (k', v') :: rest
    else if k = k' then (k, v) :: rest
    else (k', v') :: insertEntry k v rest

/-- `QMap::insert` and `QMap::operator[]` followed by assignment. -/
def insert (p : Properties) (k v : String) : Properties := ⟨insertEntry k v p.entries⟩

/-- Inserting the entries of a list one after the other, as a loop over
`insert` does. -/
def insertAll (p : Properties) (es : List (String × String)) : Properties :=
  es.foldl (fun ps e => ps.insert e.1 e.2) p

/-- `QMap::remove`: every entry stored under `k` is dropped. -/
def remove (p : Properties) (k : String) : Properties :=
  ⟨p.entries.filter (fun e => !(e.1 == k))⟩

end Properties

/-- Modelled from the spec: `QColor` is a Qt type and `ObjectType::color` is
declared in `objecttypes.h`, which is not among the sources. A colour is
represented by its name string (the spec's "hex-ish color string"), so that
`QColor::name()` is the projection and construction from a string is `mk`. -/
structure QColor where
  name : String
deriving DecidableEq, Repr

/-- Modelled from the spec: the `ObjectType` struct is declared in
`objecttypes.h`, which is not among the sources. It has the three fields the
spec lists and the code uses: name, colour, properties. -/
structure ObjectType where
  name : String
  color : QColor
  properties : Properties
deriving DecidableEq, Repr

/-- `ObjectTypes`, the catalog: a sequence of object types (the code appends
to it and iterates over it in order). -/
abbrev ObjectTypes := List ObjectType

/-! ## `ObjectPropertiesDialog::typeChanged` -/

/-- The part of the dialog's state that `typeChanged` reads and writes:
`mPrevTypeName` and the property mapping held by `model()`. -/
structure TypeSelection where
  mPrevTypeName : String
  model : Properties
deriving DecidableEq, Repr

/-- First loop of `typeChanged` (lines 132-140): the first type of the
catalog named `mPrevTypeName` has each of its keys removed, then `break`. -/
def removePrevTypeProperties (mPrevTypeName : String) :
    ObjectTypes → Properties → Properties
  | [], properties => properties
  | type :: rest, properties =>
    if type.name == mPrevTypeName then
      type.properties.keys.foldl (fun ps k => ps.remove k) properties
    else
      removePrevTypeProperties mPrevTypeName rest properties

/-- Second loop of `typeChanged` (lines 143-151). The `break` stands after
the `if`, not inside it, so the body runs for the first catalog entry only. -/
def addTypeProperties (typeName : String) : ObjectTypes → Properties → Properties
  | [], properties => properties
  | type :: _, properties =>
    if type.name == typeName then
      properties.insertAll type.properties.entries
    else
      properties

/-- The slot `ObjectPropertiesDialog::typeChanged(typeName)`; `objectTypes` is
`Preferences::instance()->objectTypes()`. -/
def typeChanged (objectTypes : ObjectTypes) (d : TypeSelection) (typeName : String) :
    TypeSelection :=
  let properties := d.model
  let properties := removePrevTypeProperties d.mPrevTypeName objectTypes properties
  let properties := addTypeProperties typeName objectTypes properties
  { mPrevTypeName := typeName, model := properties }

/-! ## `ObjectPropertiesDialog::accept` -/

/-- Modelled from the spec: `MapObject` is declared in `mapobject.h`, which is
not among the sources. These are the fields the spec lists and the dialog
reads and writes. `R` stands for `qreal`; the code only compares and copies
such values. -/
structure MapObject (R : Type) where
  name : String
  type : String
  x : R
  y : R
  width : R
  height : R
deriving DecidableEq, Repr

/-- `MapObject::position()`. -/
def MapObject.position {R : Type} (o : MapObject R) : R × R := (o.x, o.y)

/-- `MapObject::size()`. -/
def MapObject.size {R : Type} (o : MapObject R) : R × R := (o.width, o.height)

/-- The undo commands the dialog creates, with the constructor arguments
that vary (document and map object are the same for all of them). The
command classes are not among the sources; a command is kept as the record of
its construction. -/
inductive Command (R : Type) where
  | ChangeMapObject (newName newType : String)
  | MoveMapObject (oldPos : R × R)
  | ResizeMapObject (oldSize : R × R)
  | ChangeProperties
deriving DecidableEq, Repr

/-- One call on the `QUndoStack`. -/
inductive UndoCall (R : Type) where
  | beginMacro (text : String)
  | push (command : Command R)
  | endMacro
deriving DecidableEq, Repr

/-- The values held by the form widgets when the dialog is confirmed. -/
structure Form (R : Type) where
  name : String
  type : String
  x : R
  y : R
  width : R
  height : R
deriving DecidableEq, Repr

/-- What `accept` acts on: the map object and the undo stack, the latter as
the sequence of calls made on it so far. -/
structure AcceptState (R : Type) where
  mMapObject : MapObject R
  undo : List (UndoCall R)
deriving DecidableEq, Repr

/-- Modelled from the spec: `PropertiesDialog::accept`, the base dialog's
confirm handler, is not among the sources. The spec says it commits "the
generic properties-change operation", and the call site says "Let
PropertiesDialog add its command"; it is taken to push one properties command
on the undo stack. -/
def PropertiesDialog_accept {R : Type} (s : AcceptState R) : AcceptState R :=
  { s with undo := s.undo ++ [UndoCall.push Command.ChangeProperties] }

/-- `ObjectPropertiesDialog::accept` (lines 85-125). `!=` on `qreal` is the
`!=` of the `BEq` instance of `R`. The undo stack records the calls made on
it; what a pushed command does to the map object when the stack runs it is
outside the sources shown and is not part of this state. -/
def accept {R : Type} [BEq R] (mUi : Form R) (s : AcceptState R) : AcceptState R :=
  let newName := mUi.name
  let newType := mUi.type
  let newPosX := mUi.x
  let newPosY := mUi.y
  let newWidth := mUi.width
  let newHeight := mUi.height
  let changed := false
  let changed := changed || (s.mMapObject.name != newName)
  let changed := changed || (s.mMapObject.type != newType)
  let changed := changed || (s.mMapObject.x != newPosX)
  let changed := changed || (s.mMapObject.y != newPosY)
  let changed := changed || (s.mMapObject.width != newWidth)
  let changed := changed || (s.mMapObject.height != newHeight)
  let changed := changed || (s.mMapObject.height != newHeight)
  if changed then
    let s := { s with undo := s.undo ++ [UndoCall.beginMacro "Change Object"] }
    let s := { s with undo := s.undo ++
      [UndoCall.push (Command.ChangeMapObject newName newType)] }
    let oldPos := s.mMapObject.position
    let s := { s with mMapObject := { s.mMapObject with x := newPosX } }
    let s := { s with mMapObject := { s.mMapObject with y := newPosY } }
    let s := { s with undo := s.undo ++ [UndoCall.push (Command.MoveMapObject oldPos)] }
    let oldSize := s.mMapObject.size
    let s := { s with mMapObject := { s.mMapObject with width := newWidth } }
    let s := { s with mMapObject := { s.mMapObject with height := newHeight } }
    let s := { s with undo := s.undo ++ [UndoCall.push (Command.ResizeMapObject oldSize)] }
    let s := PropertiesDialog_accept s
    { s with undo := s.undo ++ [UndoCall.endMacro] }
  else
    PropertiesDialog_accept s

/-! ## XML token streams and `QXmlStreamReader` -/

/-- The tokens a `QXmlStreamReader` reports, with the data the code reads
from them. `NoToken` and `Invalid` are states of the reader, not tokens of a
document. -/
inductive Token where
  | StartDocument
  | EndDocument
  | StartElement (name : String) (attributes : List (String × String))
  | EndElement (name : String)
  | Characters (text : String)
  | Comment (text : String)
  | DTD (text : String)
  | EntityReference (name : String)
  | ProcessingInstruction (target data : String)
deriving DecidableEq, Repr

/-- `QXmlStreamAttributes::value(name).toString()`: the value of the first
attribute of that name, the empty string when there is none. -/
def attributeValue (atts : List (String × String)) (name : String) : String :=
  (atts.lookup name).getD ""

/-- A text is whitespace when it consists of XML white space only. -/
def isWhitespaceText (text : String) : Bool :=
  text.data.all (fun c => c == ' ' || c == '\t' || c == '\n' || c == '\r')

/-- The content of a file as the reader sees it: the tokens up to the point
where tokenising stops (the end of the document, or the first malformed
construct), and what the reader reports once it is asked to read past that
point. -/
structure Document where
  tokens : List Token
  errorString : String
  errorLine : Nat
  errorColumn : Nat
deriving DecidableEq, Repr

/-- The state of a `QXmlStreamReader`: the tokens not yet reported, the
token reported last (`none` before the first read and in the `Invalid`
state), and whether an error was raised (the `Invalid` state). -/
structure QXmlStreamReader where
  device : List Token
  token : Option Token
  error : Bool
  errorString : String
  lineNumber : Nat
  columnNumber : Nat
deriving DecidableEq, Repr

namespace QXmlStreamReader

/-- `QXmlStreamReader reader(&file)`. -/
def ofDocument (d : Document) : QXmlStreamReader :=
  { device := d.tokens, token := none, error := false,
    errorString := d.errorString, lineNumber := d.errorLine, columnNumber := d.errorColumn }

/-- `hasError()`. -/
def hasError (r : QXmlStreamReader) : Bool := r.error

/-- `isStartElement()`. -/
def isStartElement (r : QXmlStreamReader) : Bool :=
  match r.token with
  | some (Token.StartElement _ _) => true
  | _ => false

/-- `isEndElement()`. -/
def isEndElement (r : QXmlStreamReader) : Bool :=
  match r.token with
  | some (Token.EndElement _) => true
  | _ => false

/-- `isCharacters()`. -/
def isCharacters (r : QXmlStreamReader) : Bool :=
  match r.token with
  | some (Token.Characters _) => true
  | _ => false

/-- `isWhitespace()`: a `Characters` token of white space only. -/
def isWhitespace (r : QXmlStreamReader) : Bool :=
  match r.token with
  | some (Token.Characters text) => isWhitespaceText text
  | _ => false

/-- `name()`: the name of a start or end element, empty otherwise. -/
def name (r : QXmlStreamReader) : String :=
  match r.token with
  | some (Token.StartElement n _) => n
  | some (Token.EndElement n) => n
  | some (Token.EntityReference n) => n
  | _ => ""

/-- `attributes()`: the attributes of a start element, none otherwise. -/
def attributes (r : QXmlStreamReader) : List (String × String) :=
  match r.token with
  | some (Token.StartElement _ atts) => atts
  | _ => []

/-- `text()`. -/
def text (r : QXmlStreamReader) : String :=
  match r.token with
  | some (Token.Characters t) => t
  | some (Token.Comment t) => t
  | some (Token.DTD t) => t
  | _ => ""

/-- The reader after an error was raised: the `Invalid` state. -/
def invalid (r : QXmlStreamReader) : QXmlStreamReader :=
  { r with token := none, error := true }

/-- `readNext()`: reports the next token. In the `Invalid` state nothing is
read; reading past the last token raises an error. -/
def readNext (r : QXmlStreamReader) : QXmlStreamReader :=
  if r.error then r
  else
    match r.device with
    | [] => r.invalid
    | t :: rest => { r with device := rest, token := some t }

/-- The loop of `readNextStartElement` over the unread tokens:
`while (readNext() != Invalid)`, false at an end element, true at a start
element; false once the tokens are exhausted. -/
def readNextStartElementFrom (r : QXmlStreamReader) : List Token → Bool × QXmlStreamReader
  | [] => (false, { r with device := [], token := none, error := true })
  | Token.EndElement n :: rest => (false, { r with device := rest, token := some (Token.EndElement n) })
  | Token.StartElement n atts :: rest =>
    (true, { r with device := rest, token := some (Token.StartElement n atts) })
  | _ :: rest => readNextStartElementFrom r rest

/-- `readNextStartElement()`. -/
def readNextStartElement (r : QXmlStreamReader) : Bool × QXmlStreamReader :=
  if r.error then (false, r) else readNextStartElementFrom r r.device

/-- The loop of `skipCurrentElement` over the unread tokens, with the
current `depth` and the token reported last:
`while (depth && readNext() != Invalid)`, an end element lowers the depth, a
start element raises it. -/
def skipCurrentElementFrom (r : QXmlStreamReader) :
    Nat → Option Token → List Token → QXmlStreamReader
  | 0, tok, ts => { r with device := ts, token := tok }
  | _ + 1, _, [] => { r with device := [], token := none, error := true }
  | depth + 1, _, Token.EndElement n :: rest =>
    skipCurrentElementFrom r depth (some (Token.EndElement n)) rest
  | depth + 1, _, Token.StartElement n atts :: rest =>
    skipCurrentElementFrom r (depth + 2) (some (Token.StartElement n atts)) rest
  | depth + 1, _, t :: rest => skipCurrentElementFrom r (depth + 1) (some t) rest

/-- `skipCurrentElement()`: reads up to the end element that closes the
current element. -/
def skipCurrentElement (r : QXmlStreamReader) : QXmlStreamReader :=
  if r.error then r else skipCurrentElementFrom r 1 r.token r.device

end QXmlStreamReader

open QXmlStreamReader

/-! ## `ObjectTypesReader` -/

/-- `readUnknownElement` (lines 96-102): logs the element, then skips it. -/
def readUnknownElement (reader : QXmlStreamReader) : QXmlStreamReader :=
  reader.skipCurrentElement

/-- The `while` loop of `readProperty` (lines 112-122), carrying
`propertyValue`. -/
def readPropertyLoop : Nat → QXmlStreamReader → String → Option (QXmlStreamReader × String)
  | 0, _, _ => none
  | fuel + 1, reader, propertyValue =>
    let reader := reader.readNext
    if reader.error then some (reader, propertyValue)
    else if reader.isEndElement then some (reader, propertyValue)
    else if reader.isCharacters && !reader.isWhitespace then
      readPropertyLoop fuel reader
        (if propertyValue.data.isEmpty then reader.text else propertyValue)
    else if reader.isStartElement then
      readPropertyLoop fuel (readUnknownElement reader) propertyValue
    else readPropertyLoop fuel reader propertyValue

/-- `readProperty` (lines 104-125). -/
def readProperty (reader : QXmlStreamReader) (properties : Properties) :
    Option (QXmlStreamReader × Properties) :=
  let atts := reader.attributes
  let propertyName := attributeValue atts "name"
  let propertyValue := attributeValue atts "value"
  match readPropertyLoop (reader.device.length + 1) reader propertyValue with
  | none => none
  | some (reader, propertyValue) => some (reader, properties.insert propertyName propertyValue)

/-- The `while` loop of `readProperties` (lines 131-137). -/
def readPropertiesLoop : Nat → QXmlStreamReader → Properties →
    Option (QXmlStreamReader × Properties)
  | 0, _, _ => none
  | fuel + 1, reader, properties =>
    match reader.readNextStartElement with
    | (false, reader) => some (reader, properties)
    | (true, reader) =>
      if reader.name == "property" then
        match readProperty reader properties with
        | none => none
        | some (reader, properties) => readPropertiesLoop fuel reader properties
      else
        readPropertiesLoop fuel (readUnknownElement reader) properties

/-- `readProperties` (lines 127-138). -/
def readProperties (reader : QXmlStreamReader) (properties : Properties) :
    Option (QXmlStreamReader × Properties) :=
  readPropertiesLoop (reader.device.length + 1) reader properties

/-- The inner `while` loop of `readObjectTypes` (lines 170-177): the first
`properties` child found is read into the type's properties, then `break`;
any other start element is passed over without being skipped. -/
def readObjectTypeLoop : Nat → QXmlStreamReader → Properties →
    Option (QXmlStreamReader × Properties)
  | 0, _, _ => none
  | fuel + 1, reader, properties =>
    match reader.readNextStartElement with
    | (false, reader) => some (reader, properties)
    | (true, reader) =>
      if reader.name == "properties" then
        readProperties reader properties
      else
        readObjectTypeLoop fuel reader properties

/-- The outer `while` loop of `readObjectTypes` (lines 162-183). `type` is
the one `ObjectType` variable declared before the loop. -/
def readObjectTypesLoop : Nat → QXmlStreamReader → ObjectType → ObjectTypes →
    Option (QXmlStreamReader × ObjectTypes)
  | 0, _, _, _ => none
  | fuel + 1, reader, type, objectTypes =>
    match reader.readNextStartElement with
    | (false, reader) => some (reader, objectTypes)
    | (true, reader) =>
      if reader.name == "objecttype" then
        let atts := reader.attributes
        let type := { type with name := attributeValue atts "name" }
        let type := { type with color := QColor.mk (attributeValue atts "color") }
        match readObjectTypeLoop (reader.device.length + 1) reader type.properties with
        | none => none
        | some (reader, properties) =>
          let type := { type with properties := properties }
          let objectTypes := objectTypes ++ [type]
          readObjectTypesLoop fuel reader.skipCurrentElement type objectTypes
      else
        readObjectTypesLoop fuel reader.skipCurrentElement type objectTypes

/-- Whether a token is a start element. -/
def Token.startsElement : Token → Bool
  | Token.StartElement _ _ => true
  | _ => false

/-- The `name` attributes of the `objecttype` start elements of a token
sequence, in document order. -/
def objectTypeNames (tokens : List Token) : List String :=
  tokens.filterMap (fun t =>
    match t with
    | Token.StartElement n atts =>
      if n == "objecttype" then some (attributeValue atts "name") else none
    | _ => none)

/-- The `name` attributes of the `property` start elements of a token
sequence, in document order. -/
def propertyNames (tokens : List Token) : List String :=
  tokens.filterMap (fun t =>
    match t with
    | Token.StartElement n atts =>
      if n == "property" then some (attributeValue atts "name") else none
    | _ => none)

/-- `QCoreApplication::translate` with no translation installed: the source
text. -/
def translate (_context sourceText : String) : String := sourceText

/-- The message of lines 186-190: the pattern `"%3\n\nLine %1, column %2"`
with `%1` the line number, `%2` the column number and `%3` the reader's
error string. -/
def parseErrorMessage (reader : QXmlStreamReader) : String :=
  reader.errorString ++ translate "ObjectTypes" "\n\nLine " ++
    toString reader.lineNumber ++ ", column " ++ toString reader.columnNumber

/-- A default-constructed `ObjectType`. -/
def ObjectType.default : ObjectType :=
  { name := "", color := QColor.mk "", properties := Properties.empty }

/-- `ObjectTypesReader::readObjectTypes` (lines 140-195). The file is `none`
when it cannot be opened. The result is the returned catalog together with
`mError` as it stands after the call. -/
def readObjectTypes (file : Option Document) : Option (ObjectTypes × String) :=
  let mError := ""
  let objectTypes : ObjectTypes := []
  match file with
  | none => some (objectTypes, translate "ObjectTypes" "Could not open file.")
  | some document =>
    let reader := QXmlStreamReader.ofDocument document
    match reader.readNextStartElement with
    | (found, reader) =>
      if !found || reader.name != "objecttypes" then
        some (objectTypes, translate "ObjectTypes" "File doesn't contain object types.")
      else
        match readObjectTypesLoop (reader.device.length + 1) reader ObjectType.default
            objectTypes with
        | none => none
        | some (reader, objectTypes) =>
          if reader.hasError then
            some (objectTypes, parseErrorMessage reader)
          else
            some (objectTypes, mError)

/-! ## `QXmlStreamWriter` and `ObjectTypesWriter` -/

/-- Line-ending normalisation of character data (XML 1.0, section 2.11), which
`QXmlStreamReader` applies to element text: a carriage return followed by a
line feed is reported as one line feed, any other carriage return as a line
feed. -/
def normalizeLineEndingsOf : List Char → List Char
  | [] => []
  | c :: rest =>
    if c = '\r' then
      if rest.head? = some '\n' then normalizeLineEndingsOf rest
      else '\n' :: normalizeLineEndingsOf rest
    else c :: normalizeLineEndingsOf rest

/-- Line-ending normalisation of a string. -/
def normalizeLineEndings (text : String) : String :=
  String.mk (normalizeLineEndingsOf text.data)

/-- The state of a `QXmlStreamWriter`, with the document written so far kept
as the tokens a reader reports for it. A start tag that is still open (its
attributes may grow, and it may yet be closed as an empty element) is held in
`inStartElement`. -/
structure QXmlStreamWriter where
  tokens : List Token
  tagStack : List String
  inStartElement : Option (String × List (String × String))
  wroteSomething : Bool
  lastWasStartElement : Bool
  autoFormatting : Bool
  autoFormattingIndent : Nat
deriving DecidableEq, Repr

namespace QXmlStreamWriter

/-- `QXmlStreamWriter writer(&file)`. -/
def new : QXmlStreamWriter :=
  { tokens := [], tagStack := [], inStartElement := none, wroteSomething := false,
    lastWasStartElement := false, autoFormatting := false, autoFormattingIndent := 4 }

/-- `setAutoFormatting`. -/
def setAutoFormatting (w : QXmlStreamWriter) (enable : Bool) : QXmlStreamWriter :=
  { w with autoFormatting := enable }

/-- `setAutoFormattingIndent`. -/
def setAutoFormattingIndent (w : QXmlStreamWriter) (spaces : Nat) : QXmlStreamWriter :=
  { w with autoFormattingIndent := spaces }

/-- `finishStartElement(contents)`: closes an open start tag; returns whether
something had been written since the last call. -/
def finishStartElement (w : QXmlStreamWriter) (contents : Bool) : Bool × QXmlStreamWriter :=
  let hadSomethingWritten := w.wroteSomething
  let w := { w with wroteSomething := contents }
  match w.inStartElement with
  | none => (hadSomethingWritten, w)
  | some (name, atts) =>
    (hadSomethingWritten,
      { w with tokens := w.tokens ++ [Token.StartElement name atts], inStartElement := none })

/-- `indent(level)`: a line break and `level` indentation units. Inside an
open element a reader reports this as a whitespace `Characters` token; outside
of the root element (before its start tag) it reports nothing. -/
def indent (w : QXmlStreamWriter) (level : Nat) : QXmlStreamWriter :=
  if w.tagStack.isEmpty then w
  else
    { w with tokens := w.tokens ++
      [Token.Characters (String.mk ('\n' :: List.replicate (level * w.autoFormattingIndent) ' '))] }

/-- `writeStartDocument()`. -/
def writeStartDocument (w : QXmlStreamWriter) : QXmlStreamWriter :=
  let w := (w.finishStartElement false).2
  { w with tokens := w.tokens ++ [Token.StartDocument] }

/-- `writeStartElement(name)`. -/
def writeStartElement (w : QXmlStreamWriter) (name : String) : QXmlStreamWriter :=
  let (hadSomethingWritten, w) := w.finishStartElement false
  let w := if !hadSomethingWritten && w.autoFormatting then w.indent w.tagStack.length else w
  { w with tagStack := name :: w.tagStack, inStartElement := some (name, []),
           lastWasStartElement := true }

/-- `writeAttribute(name, value)`: only meaningful while a start tag is
open. White space in an attribute value is written as character references,
so a reader reports the value as it was given. -/
def writeAttribute (w : QXmlStreamWriter) (name value : String) : QXmlStreamWriter :=
  match w.inStartElement with
  | none => w
  | some (tag, atts) => { w with inStartElement := some (tag, atts ++ [(name, value)]) }

/-- `writeCharacters(text)`. The text goes into the file with its carriage
returns as they are, and a reader reports that character data with its line
endings normalised. -/
def writeCharacters (w : QXmlStreamWriter) (text : String) : QXmlStreamWriter :=
  let w := (w.finishStartElement true).2
  if text.data.isEmpty then w
  else { w with tokens := w.tokens ++ [Token.Characters (normalizeLineEndings text)] }

/-- `writeEndElement()`: an element into which nothing was written is closed
as an empty element, which a reader reports as a start element followed by an
end element. -/
def writeEndElement (w : QXmlStreamWriter) : QXmlStreamWriter :=
  match w.tagStack with
  | [] => w
  | tag :: tagStack =>
    match w.inStartElement with
    | some (name, atts) =>
      { w with tokens := w.tokens ++ [Token.StartElement name atts, Token.EndElement name],
               lastWasStartElement := false, inStartElement := none, tagStack := tagStack }
    | none =>
      let (hadSomethingWritten, w) := w.finishStartElement false
      let w :=
        if !hadSomethingWritten && !w.lastWasStartElement && w.autoFormatting then
          w.indent (w.tagStack.length - 1)
        else w
      { w with lastWasStartElement := false, tagStack := tagStack,
               tokens := w.tokens ++ [Token.EndElement tag] }

/-- `writeEndDocument()`: closes the elements still open, then ends the
document. -/
def writeEndDocument (w : QXmlStreamWriter) : QXmlStreamWriter :=
  let w := w.tagStack.foldl (fun w _ => w.writeEndElement) w
  { w with tokens := w.tokens ++ [Token.EndDocument] }

end QXmlStreamWriter

/-- The body of the `for` loop of `writeProperties` (lines 42-51) for the
entry `key`, `value`. -/
def writeProperty (writer : QXmlStreamWriter) (key value : String) : QXmlStreamWriter :=
  let writer := writer.writeStartElement "property"
  let writer := writer.writeAttribute "name" key
  let writer :=
    if value.data.contains '\n' then writer.writeCharacters value
    else writer.writeAttribute "value" value
  writer.writeEndElement

/-- `writeProperties` (lines 32-55). -/
def writeProperties (writer : QXmlStreamWriter) (properties : Properties) : QXmlStreamWriter :=
  if properties.isEmpty then writer
  else
    let writer := writer.writeStartElement "properties"
    let writer := properties.entries.foldl (fun writer it => writeProperty writer it.1 it.2) writer
    writer.writeEndElement

/-- The body of the `foreach` loop of `writeObjectTypes` (lines 78-82). -/
def writeObjectType (writer : QXmlStreamWriter) (objectType : ObjectType) : QXmlStreamWriter :=
  let writer := writer.writeStartElement "objecttype"
  let writer := writer.writeAttribute "name" objectType.name
  let writer := writer.writeAttribute "color" objectType.color.name
  let writer := writeProperties writer objectType.properties
  writer.writeEndElement

/-- What `writeObjectTypes` leaves behind: the returned flag, `mError`, and
the tokens of the file written (`none` when the file was not opened). -/
structure WriteResult where
  ok : Bool
  mError : String
  file : Option (List Token)
deriving DecidableEq, Repr

/-- `ObjectTypesWriter::writeObjectTypes` (lines 57-94). `canOpen` tells
whether the file opens for writing; `fileError` is the error string of the
file after the writes when `file.error()` is not `NoError`. -/
def writeObjectTypes (canOpen : Bool) (fileError : Option String) (objectTypes : ObjectTypes) :
    WriteResult :=
  let mError := ""
  if !canOpen then
    { ok := false, mError := translate "ObjectTypes" "Could not open file for writing.",
      file := none }
  else
    let writer := QXmlStreamWriter.new
    let writer := writer.setAutoFormatting true
    let writer := writer.setAutoFormattingIndent 1
    let writer := writer.writeStartDocument
    let writer := writer.writeStartElement "objecttypes"
    let writer := objectTypes.foldl writeObjectType writer
    let writer := writer.writeEndElement
    let writer := writer.writeEndDocument
    match fileError with
    | some errorString => { ok := false, mError := errorString, file := some writer.tokens }
    | none => { ok := true, mError := mError, file := some writer.tokens }


/-! ## Lemmas on `Properties` -/


namespace Properties

theorem mem_keys_remove (p : Properties) (k k' : String) :
    k ∈ (p.remove k').keys ↔ k ∈ p.keys ∧ k ≠ k' := by
  simp only [keys, remove, List.mem_map, List.mem_filter]
  constructor
  · rintro ⟨e, ⟨he, hne⟩, rfl⟩
    exact ⟨⟨e, he, rfl⟩, by simpa using hne⟩
  · rintro ⟨⟨e, he, rfl⟩, hne⟩
    exact ⟨e, ⟨he, by simpa using hne⟩, rfl⟩

theorem find?_remove_of_ne (p : Properties) {k k' : String} (h : k ≠ k') :
    (p.remove k').find? k = p.find? k := by
  obtain ⟨l⟩ := p
  simp only [find?, remove]
  induction l with
  | nil => rfl
  | cons e l ih =>
    obtain ⟨a, b⟩ := e
    by_cases ha : a = k'
    · subst ha
      have hk : (k == a) = false := by simpa using h
      simp [List.filter_cons, List.lookup_cons, hk, ih]
    · have : (!(a == k')) = true := by simpa using ha
      simp only [List.filter_cons, this, if_true, List.lookup_cons, ih]

theorem mem_keys_foldl_remove (ks : List String) (p : Properties) (k : String) :
    k ∈ (ks.foldl (fun ps k => ps.remove k) p).keys ↔ k ∈ p.keys ∧ k ∉ ks := by
  induction ks generalizing p with
  | nil => simp
  | cons a ks ih =>
    rw [List.foldl_cons, ih, mem_keys_remove]
    simp only [List.mem_cons, not_or]
    tauto

theorem find?_foldl_remove (ks : List String) (p : Properties) {k : String} (h : k ∉ ks) :
    (ks.foldl (fun ps k => ps.remove k) p).find? k = p.find? k := by
  induction ks generalizing p with
  | nil => rfl
  | cons a ks ih =>
    simp only [List.mem_cons, not_or] at h
    rw [List.foldl_cons, ih _ h.2, find?_remove_of_ne _ h.1]

theorem mem_keys_insertEntry (l : List (String × String)) (k k' v : String) :
    k ∈ (insertEntry k' v l).map Prod.fst ↔ k = k' ∨ k ∈ l.map Prod.fst := by
  induction l with
  | nil => simp [insertEntry]
  | cons e l ih =>
    obtain ⟨a, b⟩ := e
    unfold insertEntry
    split
    · simp
    · split
      · rename_i h; subst h; simp
      · simp only [List.map_cons, List.mem_cons, ih]; tauto

theorem mem_keys_insert (p : Properties) (k k' v : String) :
    k ∈ (p.insert k' v).keys ↔ k = k' ∨ k ∈ p.keys :=
  mem_keys_insertEntry p.entries k k' v

theorem lookup_insertEntry_of_ne (l : List (String × String)) {k k' : String} (v : String)
    (h : k ≠ k') : (insertEntry k' v l).lookup k = l.lookup k := by
  have hk : (k == k') = false := by simpa using h
  induction l with
  | nil => simp [insertEntry, List.lookup_cons, hk]
  | cons e l ih =>
    obtain ⟨a, b⟩ := e
    unfold insertEntry
    split
    · simp [List.lookup_cons, hk]
    · split
      · rename_i h'; subst h'; simp [List.lookup_cons, hk]
      · simp only [List.lookup_cons, ih]

theorem find?_insert_of_ne (p : Properties) {k k' : String} (v : String) (h : k ≠ k') :
    (p.insert k' v).find? k = p.find? k :=
  lookup_insertEntry_of_ne p.entries v h

theorem insertAll_nil (p : Properties) : p.insertAll [] = p := rfl

theorem insertAll_cons (p : Properties) (e : String × String) (es : List (String × String)) :
    p.insertAll (e :: es) = (p.insert e.1 e.2).insertAll es := rfl

theorem insertAll_append (p : Properties) (es es' : List (String × String)) :
    p.insertAll (es ++ es') = (p.insertAll es).insertAll es' := by
  simp [insertAll, List.foldl_append]

theorem mem_keys_insertAll (es : List (String × String)) (p : Properties) (k : String) :
    k ∈ (p.insertAll es).keys ↔ k ∈ p.keys ∨ k ∈ es.map Prod.fst := by
  induction es generalizing p with
  | nil => simp [insertAll]
  | cons e es ih =>
    rw [insertAll_cons, ih, mem_keys_insert]
    simp only [List.map_cons, List.mem_cons]
    tauto

theorem find?_insertAll (es : List (String × String)) (p : Properties) {k : String}
    (h : k ∉ es.map Prod.fst) : (p.insertAll es).find? k = p.find? k := by
  induction es generalizing p with
  | nil => rfl
  | cons e es ih =>
    simp only [List.map_cons, List.mem_cons, not_or] at h
    rw [insertAll_cons, ih _ h.2, find?_insert_of_ne _ _ h.1]

theorem find?_eq_none_iff (p : Properties) (k : String) :
    p.find? k = none ↔ k ∉ p.keys := by
  obtain ⟨l⟩ := p
  simp only [find?, keys]
  induction l with
  | nil => simp
  | cons e l ih =>
    obtain ⟨a, b⟩ := e
    by_cases h : k = a
    · subst h; simp [List.lookup_cons]
    · have : (k == a) = false := by simpa using h
      simp [List.lookup_cons, this, ih, h]

end Properties

/-! ## `typeChanged` -/

theorem removePrevTypeProperties_eq_of_find (prev : String) (objectTypes : ObjectTypes)
    (ps : Properties) :
    removePrevTypeProperties prev objectTypes ps =
      match objectTypes.find? (fun T => T.name == prev) with
      | some P => P.properties.keys.foldl (fun ps k => ps.remove k) ps
      | none => ps := by
  induction objectTypes with
  | nil => rfl
  | cons T rest ih =>
    by_cases h : (T.name == prev) = true
    · simp [removePrevTypeProperties, List.find?_cons, h]
    · have h' : (T.name == prev) = false := by simpa using h
      simp only [removePrevTypeProperties, List.find?_cons, h', ih]
      simp

theorem find?_name_of_nodup (objectTypes : ObjectTypes) (P : ObjectType)
    (hnodup : (objectTypes.map ObjectType.name).Nodup) (hP : P ∈ objectTypes) :
    objectTypes.find? (fun T => T.name == P.name) = some P := by
  induction objectTypes with
  | nil => cases hP
  | cons T rest ih =>
    rw [List.map_cons, List.nodup_cons] at hnodup
    rcases List.mem_cons.mp hP with rfl | hmem
    · simp [List.find?_cons]
    · have hne : (T.name == P.name) = false := by
        have : T.name ≠ P.name := fun h =>
          hnodup.1 (h ▸ List.mem_map_of_mem ObjectType.name hmem)
        simpa using this
      simp only [List.find?_cons, hne]
      exact ih hnodup.2 hmem

theorem mem_keys_addTypeProperties (t : String) (objectTypes : ObjectTypes) (ps : Properties)
    (k : String) (h : k ∈ (addTypeProperties t objectTypes ps).keys) :
    k ∈ ps.keys ∨ ∃ T, objectTypes.head? = some T ∧ T.name = t ∧ k ∈ T.properties.keys := by
  cases objectTypes with
  | nil => exact Or.inl h
  | cons T rest =>
    by_cases hT : (T.name == t) = true
    · simp only [addTypeProperties, hT, if_true] at h
      rcases (Properties.mem_keys_insertAll _ _ _).mp h with h | h
      · exact Or.inl h
      · exact Or.inr ⟨T, rfl, by simpa using hT, h⟩
    · have hT' : (T.name == t) = false := by simpa using hT
      simp only [addTypeProperties, hT'] at h
      exact Or.inl h

theorem find?_addTypeProperties (t : String) (objectTypes : ObjectTypes) (ps : Properties)
    (k : String)
    (h : ∀ T, objectTypes.head? = some T → T.name = t → k ∉ T.properties.keys) :
    (addTypeProperties t objectTypes ps).find? k = ps.find? k := by
  cases objectTypes with
  | nil => rfl
  | cons T rest =>
    by_cases hT : (T.name == t) = true
    · simp only [addTypeProperties, hT, if_true]
      exact Properties.find?_insertAll _ _ (h T rfl (by simpa using hT))
    · have hT' : (T.name == t) = false := by simpa using hT
      simp only [addTypeProperties, hT']
      rfl

theorem head?_eq_find?_of_name (objectTypes : ObjectTypes) (T : ObjectType) (t : String)
    (hhead : objectTypes.head? = some T) (hname : T.name = t) :
    objectTypes.find? (fun T => T.name == t) = some T := by
  cases objectTypes with
  | nil => cases hhead
  | cons T' rest =>
    simp only [List.head?_cons, Option.some.injEq] at hhead
    subst hhead
    simp [List.find?_cons, hname]

/-- C3 (failing input). With the catalog `[A {}, B {hp: 10}]` and an empty
live mapping, `typeChanged "B"` leaves the mapping empty: the template of the
second catalog entry is not merged in. -/
theorem typeChanged_second_type_not_merged :
    (typeChanged
      [⟨"A", ⟨"#ff0000"⟩, ⟨[]⟩⟩, ⟨"B", ⟨"#00ff00"⟩, ⟨[("hp", "10")]⟩⟩]
      ⟨"", ⟨[]⟩⟩ "B").model.find? "hp" = none ∧
    (typeChanged
      [⟨"B", ⟨"#00ff00"⟩, ⟨[("hp", "10")]⟩⟩, ⟨"A", ⟨"#ff0000"⟩, ⟨[]⟩⟩]
      ⟨"", ⟨[]⟩⟩ "B").model.find? "hp" = some "10" := by
  decide

/-- C4. In a catalog with unique type names, if `mPrevTypeName` names the
type `P`, then after `typeChanged t` every key of `P.properties` that is not a
key of the properties of a type named `t` is absent from the live property
model, and `mPrevTypeName` is `t`. -/
theorem typeChanged_removes_previous_template (objectTypes : ObjectTypes) (d : TypeSelection)
    (t : String) (P : ObjectType) (k : String)
    (hnodup : (objectTypes.map ObjectType.name).Nodup)
    (hP : P ∈ objectTypes) (hname : P.name = d.mPrevTypeName)
    (hk : k ∈ P.properties.keys)
    (hnew : ∀ T ∈ objectTypes, T.name = t → k ∉ T.properties.keys) :
    k ∉ (typeChanged objectTypes d t).model.keys ∧
    (typeChanged objectTypes d t).model.find? k = none ∧
    (typeChanged objectTypes d t).mPrevTypeName = t := by
  have habsent : k ∉ (typeChanged objectTypes d t).model.keys := by
    intro hmem
    simp only [typeChanged] at hmem
    rcases mem_keys_addTypeProperties _ _ _ _ hmem with h | ⟨T, hhead, hT, hkT⟩
    · rw [removePrevTypeProperties_eq_of_find, ← hname,
        find?_name_of_nodup objectTypes P hnodup hP] at h
      exact ((Properties.mem_keys_foldl_remove _ _ _).mp h).2 hk
    · exact hnew T (List.mem_of_mem_head? hhead) hT hkT
  exact ⟨habsent, (Properties.find?_eq_none_iff _ _).mpr habsent, rfl⟩

/-- C4 at a concrete input: catalog `[A {}, B {hp: 10}]`, previous type `B`,
live mapping `{hp: 10, note: x}`, new type `A`. -/
theorem typeChanged_removes_previous_template_witness :
    "hp" ∉ (typeChanged
      [⟨"A", ⟨"#ff0000"⟩, ⟨[]⟩⟩, ⟨"B", ⟨"#00ff00"⟩, ⟨[("hp", "10")]⟩⟩]
      ⟨"B", ⟨[("hp", "10"), ("note", "x")]⟩⟩ "A").model.keys ∧
    (typeChanged
      [⟨"A", ⟨"#ff0000"⟩, ⟨[]⟩⟩, ⟨"B", ⟨"#00ff00"⟩, ⟨[("hp", "10")]⟩⟩]
      ⟨"B", ⟨[("hp", "10"), ("note", "x")]⟩⟩ "A").model.find? "hp" = none ∧
    (typeChanged
      [⟨"A", ⟨"#ff0000"⟩, ⟨[]⟩⟩, ⟨"B", ⟨"#00ff00"⟩, ⟨[("hp", "10")]⟩⟩]
      ⟨"B", ⟨[("hp", "10"), ("note", "x")]⟩⟩ "A").mPrevTypeName = "A" :=
  typeChanged_removes_previous_template
    [⟨"A", ⟨"#ff0000"⟩, ⟨[]⟩⟩, ⟨"B", ⟨"#00ff00"⟩, ⟨[("hp", "10")]⟩⟩]
    ⟨"B", ⟨[("hp", "10"), ("note", "x")]⟩⟩ "A" ⟨"B", ⟨"#00ff00"⟩, ⟨[("hp", "10")]⟩⟩ "hp"
    (by decide) (by decide) rfl (by decide) (by decide)

/-- C5. For every catalog, previous type name, new type name `t` and live
mapping: a key of the mapping that is neither a key of the previous type's
template nor a key of the new type's template keeps its value, and a key
present afterwards was in the mapping or is a key of the new type's template.
The template of a name is that of the first catalog entry so named. -/
theorem typeChanged_frame (objectTypes : ObjectTypes) (d : TypeSelection) (t : String) :
    (∀ k v, d.model.find? k = some v →
      (∀ P, objectTypes.find? (fun T => T.name == d.mPrevTypeName) = some P →
        k ∉ P.properties.keys) →
      (∀ T, objectTypes.find? (fun T => T.name == t) = some T → k ∉ T.properties.keys) →
      (typeChanged objectTypes d t).model.find? k = some v) ∧
    (∀ k, k ∈ (typeChanged objectTypes d t).model.keys →
      k ∈ d.model.keys ∨
        ∃ T, objectTypes.find? (fun T => T.name == t) = some T ∧ k ∈ T.properties.keys) := by
  constructor
  · intro k v hv hprev hnew
    simp only [typeChanged]
    rw [find?_addTypeProperties, removePrevTypeProperties_eq_of_find]
    · cases hfind : objectTypes.find? (fun T => T.name == d.mPrevTypeName) with
      | none => exact hv
      | some P =>
        simp only
        rw [Properties.find?_foldl_remove _ _ (hprev P hfind)]
        exact hv
    · intro T hhead hT
      exact hnew T (head?_eq_find?_of_name _ _ _ hhead hT)
  · intro k hk
    simp only [typeChanged] at hk
    rcases mem_keys_addTypeProperties _ _ _ _ hk with h | ⟨T, hhead, hT, hkT⟩
    · left
      rw [removePrevTypeProperties_eq_of_find] at h
      cases hfind : objectTypes.find? (fun T => T.name == d.mPrevTypeName) with
      | none => rw [hfind] at h; exact h
      | some P =>
        rw [hfind] at h
        exact ((Properties.mem_keys_foldl_remove _ _ _).mp h).1
    · exact Or.inr ⟨T, head?_eq_find?_of_name _ _ _ hhead hT, hkT⟩

/-- C5 at a concrete input: catalog `[A {}, B {hp: 10}]`, previous type `B`,
live mapping `{hp: 10, note: x}`, new type `A`; the user's `note` keeps its
value. -/
theorem typeChanged_frame_witness :
    (typeChanged
      [⟨"A", ⟨"#ff0000"⟩, ⟨[]⟩⟩, ⟨"B", ⟨"#00ff00"⟩, ⟨[("hp", "10")]⟩⟩]
      ⟨"B", ⟨[("hp", "10"), ("note", "x")]⟩⟩ "A").model.find? "note" = some "x" :=
  (typeChanged_frame
    [⟨"A", ⟨"#ff0000"⟩, ⟨[]⟩⟩, ⟨"B", ⟨"#00ff00"⟩, ⟨[("hp", "10")]⟩⟩]
    ⟨"B", ⟨[("hp", "10"), ("note", "x")]⟩⟩ "A").1 "note" "x" (by decide) (by decide) (by decide)

/-! ## `accept` -/

/-- C6. If none of name, type, x, y, width, height differs from the map
object's values, `accept` makes one call on the undo stack, the push of the
base dialog's properties command. If at least one differs, it makes, in this
order: `beginMacro`, push of `ChangeMapObject(newName, newType)`, push of
`MoveMapObject(old position)`, push of `ResizeMapObject(old size)`, push of
the properties command, `endMacro`. -/
theorem accept_undo_calls {R : Type} [BEq R] (mUi : Form R) (s : AcceptState R) :
    (((s.mMapObject.name != mUi.name) = false ∧ (s.mMapObject.type != mUi.type) = false ∧
      (s.mMapObject.x != mUi.x) = false ∧ (s.mMapObject.y != mUi.y) = false ∧
      (s.mMapObject.width != mUi.width) = false ∧
      (s.mMapObject.height != mUi.height) = false) →
      (accept mUi s).undo = s.undo ++ [UndoCall.push Command.ChangeProperties]) ∧
    (((s.mMapObject.name != mUi.name) = true ∨ (s.mMapObject.type != mUi.type) = true ∨
      (s.mMapObject.x != mUi.x) = true ∨ (s.mMapObject.y != mUi.y) = true ∨
      (s.mMapObject.width != mUi.width) = true ∨
      (s.mMapObject.height != mUi.height) = true) →
      (accept mUi s).undo = s.undo ++
        [UndoCall.beginMacro "Change Object",
         UndoCall.push (Command.ChangeMapObject mUi.name mUi.type),
         UndoCall.push (Command.MoveMapObject (s.mMapObject.x, s.mMapObject.y)),
         UndoCall.push (Command.ResizeMapObject (s.mMapObject.width, s.mMapObject.height)),
         UndoCall.push Command.ChangeProperties,
         UndoCall.endMacro]) := by
  constructor
  · rintro ⟨h1, h2, h3, h4, h5, h6⟩
    simp [accept, h1, h2, h3, h4, h5, h6, PropertiesDialog_accept]
  · intro h
    have hc : (false || (s.mMapObject.name != mUi.name) || (s.mMapObject.type != mUi.type) ||
        (s.mMapObject.x != mUi.x) || (s.mMapObject.y != mUi.y) ||
        (s.mMapObject.width != mUi.width) || (s.mMapObject.height != mUi.height) ||
        (s.mMapObject.height != mUi.height)) = true := by
      rcases h with h | h | h | h | h | h <;> simp [h]
    simp only [accept, hc, if_true, PropertiesDialog_accept, MapObject.position, MapObject.size,
      List.append_assoc, List.cons_append, List.nil_append]

/-- C6 at concrete inputs over `Int`: a form equal to the map object, and a
form in which only `x` differs. -/
theorem accept_undo_calls_witness :
    (accept (⟨"chest", "Item", 3, 4, 16, 16⟩ : Form Int)
      ⟨⟨"chest", "Item", 3, 4, 16, 16⟩, []⟩).undo =
      [] ++ [UndoCall.push Command.ChangeProperties] ∧
    (accept (⟨"chest", "Item", 5, 4, 16, 16⟩ : Form Int)
      ⟨⟨"chest", "Item", 3, 4, 16, 16⟩, []⟩).undo =
      [] ++ [UndoCall.beginMacro "Change Object",
        UndoCall.push (Command.ChangeMapObject "chest" "Item"),
        UndoCall.push (Command.MoveMapObject (3, 4)),
        UndoCall.push (Command.ResizeMapObject (16, 16)),
        UndoCall.push Command.ChangeProperties,
        UndoCall.endMacro] :=
  ⟨(accept_undo_calls (⟨"chest", "Item", 3, 4, 16, 16⟩ : Form Int)
      ⟨⟨"chest", "Item", 3, 4, 16, 16⟩, []⟩).1 (by decide),
   (accept_undo_calls (⟨"chest", "Item", 5, 4, 16, 16⟩ : Form Int)
      ⟨⟨"chest", "Item", 3, 4, 16, 16⟩, []⟩).2 (by decide)⟩

/-! ## The reader never reads backwards -/

namespace QXmlStreamReader

theorem readNext_device (r : QXmlStreamReader) :
    (r.readNext.error = true ∧ r.readNext.device <:+ r.device) ∨
    ∃ t, r.device = t :: r.readNext.device ∧ r.readNext.token = some t ∧
      r.readNext.error = false := by
  unfold readNext
  cases he : r.error with
  | true => left; simp [he]
  | false =>
    cases hd : r.device with
    | nil => left; simp [invalid, hd]
    | cons t rest => right; exact ⟨t, by simp [he]⟩

theorem readNextStartElementFrom_suffix (r : QXmlStreamReader) (ts : List Token) :
    (readNextStartElementFrom r ts).2.device <:+ ts := by
  induction ts with
  | nil => simp [readNextStartElementFrom]
  | cons t rest ih =>
    cases t <;> simp only [readNextStartElementFrom] <;>
      first
        | exact List.suffix_cons _ _
        | exact ih.trans (List.suffix_cons _ _)

theorem readNextStartElementFrom_true (r : QXmlStreamReader) (ts : List Token)
    (h : (readNextStartElementFrom r ts).1 = true) :
    ∃ pre n atts, ts = pre ++ Token.StartElement n atts :: (readNextStartElementFrom r ts).2.device ∧
      (readNextStartElementFrom r ts).2.token = some (Token.StartElement n atts) ∧
      (readNextStartElementFrom r ts).2.error = r.error := by
  induction ts with
  | nil => simp [readNextStartElementFrom] at h
  | cons t rest ih =>
    cases t
    case StartElement n atts => exact ⟨[], n, atts, by simp [readNextStartElementFrom]⟩
    case EndElement n => simp [readNextStartElementFrom] at h
    all_goals
      simp only [readNextStartElementFrom] at h ⊢
      obtain ⟨pre, n, atts, h1, h2, h3⟩ := ih h
      exact ⟨_ :: pre, n, atts, by rw [List.cons_append, ← h1], h2, h3⟩

theorem readNextStartElement_suffix (r : QXmlStreamReader) :
    r.readNextStartElement.2.device <:+ r.device := by
  unfold readNextStartElement
  split
  · exact List.suffix_refl _
  · exact readNextStartElementFrom_suffix r r.device

theorem readNextStartElement_true (r : QXmlStreamReader)
    (h : r.readNextStartElement.1 = true) :
    ∃ pre n atts, r.device = pre ++ Token.StartElement n atts :: r.readNextStartElement.2.device ∧
      r.readNextStartElement.2.token = some (Token.StartElement n atts) := by
  unfold readNextStartElement at h ⊢
  split at h
  · cases h
  · rename_i he
    simp only [he]
    obtain ⟨pre, n, atts, h1, h2, _⟩ := readNextStartElementFrom_true r r.device h
    exact ⟨pre, n, atts, h1, h2⟩

theorem readNextStartElement_length_lt (r : QXmlStreamReader)
    (h : r.readNextStartElement.1 = true) :
    r.readNextStartElement.2.device.length < r.device.length := by
  obtain ⟨pre, n, atts, h1, _⟩ := readNextStartElement_true r h
  rw [congrArg List.length h1]
  simp
  omega

theorem skipCurrentElementFrom_suffix (r : QXmlStreamReader) (depth : Nat) (tok : Option Token)
    (ts : List Token) : (skipCurrentElementFrom r depth tok ts).device <:+ ts := by
  induction ts generalizing depth tok with
  | nil => cases depth <;> simp [skipCurrentElementFrom]
  | cons t rest ih =>
    cases depth with
    | zero => simp [skipCurrentElementFrom]
    | succ depth =>
      cases t <;> simp only [skipCurrentElementFrom] <;>
        exact (ih _ _).trans (List.suffix_cons _ _)

theorem skipCurrentElement_suffix (r : QXmlStreamReader) :
    r.skipCurrentElement.device <:+ r.device := by
  unfold skipCurrentElement
  split
  · exact List.suffix_refl _
  · exact skipCurrentElementFrom_suffix r 1 r.token r.device

end QXmlStreamReader

/-! ## Adequacy of the fuel, and what the reader loops preserve -/

theorem readUnknownElement_suffix (r : QXmlStreamReader) :
    (readUnknownElement r).device <:+ r.device :=
  QXmlStreamReader.skipCurrentElement_suffix r

theorem propertyNames_append (a b : List Token) :
    propertyNames (a ++ b) = propertyNames a ++ propertyNames b := by
  simp [propertyNames, List.filterMap_append]

theorem objectTypeNames_append (a b : List Token) :
    objectTypeNames (a ++ b) = objectTypeNames a ++ objectTypeNames b := by
  simp [objectTypeNames, List.filterMap_append]

theorem propertyNames_cons_sublist (t : Token) (a : List Token) :
    (propertyNames a).Sublist (propertyNames (t :: a)) :=
  (List.sublist_cons_self t a).filterMap _

theorem objectTypeNames_cons_sublist (t : Token) (a : List Token) :
    (objectTypeNames a).Sublist (objectTypeNames (t :: a)) :=
  (List.sublist_cons_self t a).filterMap _

theorem propertyNames_property (atts : List (String × String)) (a : List Token) :
    propertyNames (Token.StartElement "property" atts :: a) =
      attributeValue atts "name" :: propertyNames a := by
  simp [propertyNames, List.filterMap_cons]

theorem objectTypeNames_objecttype (atts : List (String × String)) (a : List Token) :
    objectTypeNames (Token.StartElement "objecttype" atts :: a) =
      attributeValue atts "name" :: objectTypeNames a := by
  simp [objectTypeNames, List.filterMap_cons]

theorem objectTypeNames_sublist_of_suffix {l₁ l₂ : List Token} (h : l₁ <:+ l₂) :
    (objectTypeNames l₁).Sublist (objectTypeNames l₂) :=
  h.sublist.filterMap _

theorem readPropertyLoop_some (fuel : Nat) (r : QXmlStreamReader) (v : String)
    (h : r.device.length < fuel) :
    ∃ r' v', readPropertyLoop fuel r v = some (r', v') ∧ r'.device <:+ r.device := by
  induction fuel generalizing r v with
  | zero => omega
  | succ fuel ih =>
    unfold readPropertyLoop
    rcases QXmlStreamReader.readNext_device r with ⟨he, hs⟩ | ⟨t, hd, _, he⟩
    · simp only [he, if_true]
      exact ⟨_, _, rfl, hs⟩
    · have hlen : r.readNext.device.length < fuel := by
        rw [congrArg List.length hd, List.length_cons] at h
        omega
      have hsuf : r.readNext.device <:+ r.device := by
        rw [hd]; exact List.suffix_cons _ _
      simp only [he]
      split
      · rename_i hc; cases hc
      · split
        · exact ⟨_, _, rfl, hsuf⟩
        · split
          · obtain ⟨r', v', h1, h2⟩ := ih r.readNext
              (if v.data.isEmpty then r.readNext.text else v) hlen
            exact ⟨r', v', h1, h2.trans hsuf⟩
          · split
            · have hs2 := readUnknownElement_suffix r.readNext
              obtain ⟨r', v', h1, h2⟩ := ih (readUnknownElement r.readNext) v
                (lt_of_le_of_lt hs2.length_le hlen)
              exact ⟨r', v', h1, (h2.trans hs2).trans hsuf⟩
            · obtain ⟨r', v', h1, h2⟩ := ih r.readNext v hlen
              exact ⟨r', v', h1, h2.trans hsuf⟩

theorem readProperty_some (r : QXmlStreamReader) (p : Properties) :
    ∃ r' v, readProperty r p = some (r', p.insert (attributeValue r.attributes "name") v) ∧
      r'.device <:+ r.device := by
  unfold readProperty
  obtain ⟨r', v', h1, h2⟩ := readPropertyLoop_some (r.device.length + 1) r
    (attributeValue r.attributes "value") (Nat.lt_succ_self _)
  simp only [h1]
  exact ⟨r', v', rfl, h2⟩

theorem readPropertiesLoop_some (fuel : Nat) (r : QXmlStreamReader) (p : Properties)
    (h : r.device.length < fuel) :
    ∃ r' es consumed, readPropertiesLoop fuel r p = some (r', p.insertAll es) ∧
      r.device = consumed ++ r'.device ∧
      (es.map Prod.fst).Sublist (propertyNames consumed) := by
  induction fuel generalizing r p with
  | zero => omega
  | succ fuel ih =>
    unfold readPropertiesLoop
    have hsuf := QXmlStreamReader.readNextStartElement_suffix r
    have hlt := QXmlStreamReader.readNextStartElement_length_lt r
    have htrue := QXmlStreamReader.readNextStartElement_true r
    rcases hrn : r.readNextStartElement with ⟨found, r1⟩
    rw [hrn] at hsuf hlt htrue
    cases found with
    | false =>
      obtain ⟨c, hc⟩ := hsuf
      exact ⟨r1, [], c, rfl, hc.symm, by simp⟩
    | true =>
      have hlen : r1.device.length < fuel := by have := hlt rfl; simp only at this; omega
      obtain ⟨pre, n, atts, hdev, htok⟩ := htrue rfl
      simp only at hdev htok
      have hname : r1.name = n := by simp [QXmlStreamReader.name, htok]
      have hatts : r1.attributes = atts := by simp [QXmlStreamReader.attributes, htok]
      simp only
      split
      · rename_i hn
        have hn' : n = "property" := by rw [← hname]; simpa using hn
        subst hn'
        obtain ⟨r2, v, h1, c2, h2⟩ := readProperty_some r1 p
        simp only [h1]
        obtain ⟨r', es, c3, h3, h4, h5⟩ := ih r2
          (p.insert (attributeValue r1.attributes "name") v)
          (lt_of_le_of_lt (List.IsSuffix.length_le ⟨c2, h2⟩) hlen)
        refine ⟨r', (attributeValue r1.attributes "name", v) :: es,
          pre ++ Token.StartElement "property" atts :: (c2 ++ c3), h3, ?_, ?_⟩
        · rw [hdev, ← h2, h4]; simp
        · rw [propertyNames_append, propertyNames_property, propertyNames_append, hatts]
          exact List.sublist_append_of_sublist_right
            ((List.sublist_append_of_sublist_right h5).cons₂ _)
      · have hs2 := readUnknownElement_suffix r1
        obtain ⟨c2, h2⟩ := hs2
        obtain ⟨r', es, c3, h3, h4, h5⟩ := ih (readUnknownElement r1) p
          (lt_of_le_of_lt (List.IsSuffix.length_le ⟨c2, h2⟩) hlen)
        refine ⟨r', es, pre ++ Token.StartElement n atts :: (c2 ++ c3), h3, ?_, ?_⟩
        · rw [hdev, ← h2, h4]; simp
        · rw [propertyNames_append]
          exact List.sublist_append_of_sublist_right
            (((by rw [propertyNames_append]
                  exact List.sublist_append_of_sublist_right h5 :
                (es.map Prod.fst).Sublist (propertyNames (c2 ++ c3)))).trans
              (propertyNames_cons_sublist _ _))

theorem readProperties_some (r : QXmlStreamReader) (p : Properties) :
    ∃ r' es consumed, readProperties r p = some (r', p.insertAll es) ∧
      r.device = consumed ++ r'.device ∧
      (es.map Prod.fst).Sublist (propertyNames consumed) :=
  readPropertiesLoop_some _ r p (Nat.lt_succ_self _)

theorem readObjectTypeLoop_some (fuel : Nat) (r : QXmlStreamReader) (p : Properties)
    (h : r.device.length < fuel) :
    ∃ r' es consumed, readObjectTypeLoop fuel r p = some (r', p.insertAll es) ∧
      r.device = consumed ++ r'.device ∧
      (es.map Prod.fst).Sublist (propertyNames consumed) := by
  induction fuel generalizing r with
  | zero => omega
  | succ fuel ih =>
    unfold readObjectTypeLoop
    have hsuf := QXmlStreamReader.readNextStartElement_suffix r
    have hlt := QXmlStreamReader.readNextStartElement_length_lt r
    have htrue := QXmlStreamReader.readNextStartElement_true r
    rcases hrn : r.readNextStartElement with ⟨found, r1⟩
    rw [hrn] at hsuf hlt htrue
    cases found with
    | false =>
      obtain ⟨c, hc⟩ := hsuf
      exact ⟨r1, [], c, rfl, hc.symm, by simp⟩
    | true =>
      have hlen : r1.device.length < fuel := by have := hlt rfl; simp only at this; omega
      obtain ⟨pre, n, atts, hdev, _⟩ := htrue rfl
      simp only at hdev
      have key : ∀ (r' : QXmlStreamReader) (es : List (String × String)) (c : List Token),
          r1.device = c ++ r'.device → (es.map Prod.fst).Sublist (propertyNames c) →
          r.device = (pre ++ Token.StartElement n atts :: c) ++ r'.device ∧
            (es.map Prod.fst).Sublist (propertyNames (pre ++ Token.StartElement n atts :: c)) := by
        intro r' es c hc hes
        refine ⟨by rw [hdev, hc]; simp, ?_⟩
        rw [propertyNames_append]
        exact List.sublist_append_of_sublist_right (hes.trans (propertyNames_cons_sublist _ _))
      simp only
      split
      · obtain ⟨r', es, c, h1, h2, h3⟩ := readProperties_some r1 p
        exact ⟨r', es, _, h1, (key r' es c h2 h3).1, (key r' es c h2 h3).2⟩
      · obtain ⟨r', es, c, h1, h2, h3⟩ := ih r1 hlen
        exact ⟨r', es, _, h1, (key r' es c h2 h3).1, (key r' es c h2 h3).2⟩

theorem propertyNames_mono {a b : List Token} (h : a.Sublist b) :
    (propertyNames a).Sublist (propertyNames b) :=
  h.filterMap _

theorem objectTypeNames_mono {a b : List Token} (h : a.Sublist b) :
    (objectTypeNames a).Sublist (objectTypeNames b) :=
  h.filterMap _

theorem keys_insertAll_sublist {es es' : List (String × String)} {a b : List Token}
    (h : (es.map Prod.fst).Sublist (propertyNames a))
    (h' : (es'.map Prod.fst).Sublist (propertyNames b)) :
    ((es ++ es').map Prod.fst).Sublist (propertyNames (a ++ b)) := by
  rw [List.map_append, propertyNames_append]
  exact h.append h'

theorem readObjectTypesLoop_some (fuel : Nat) (r : QXmlStreamReader) (type : ObjectType)
    (cat : ObjectTypes) (h : r.device.length < fuel) :
    ∃ r' new pre tail, readObjectTypesLoop fuel r type cat = some (r', cat ++ new) ∧
      r.device = pre ++ (tail ++ r'.device) ∧
      (∀ V, new[0]? = some V → ∃ atts rest,
        tail = Token.StartElement "objecttype" atts :: rest ∧
          V.name = attributeValue atts "name") ∧
      (new.map ObjectType.name).Sublist (objectTypeNames tail) ∧
      (∀ U ∈ new, ∃ es, U.properties = type.properties.insertAll es ∧
        (es.map Prod.fst).Sublist (propertyNames tail)) ∧
      (∀ (i j : Nat) (T U : ObjectType), i < j → new[i]? = some T → new[j]? = some U →
        ∃ earlier later inherited redefined, tail = earlier ++ later ∧
          (∃ atts rest V, later = Token.StartElement "objecttype" atts :: rest ∧
            new[i + 1]? = some V ∧ V.name = attributeValue atts "name") ∧
          T.properties = type.properties.insertAll inherited ∧
          (inherited.map Prod.fst).Sublist (propertyNames earlier) ∧
          T.name ∈ objectTypeNames earlier ∧
          U.properties = T.properties.insertAll redefined ∧
          (redefined.map Prod.fst).Sublist (propertyNames later) ∧
          U.name ∈ objectTypeNames later) := by
  induction fuel generalizing r type cat with
  | zero => omega
  | succ fuel ih =>
    unfold readObjectTypesLoop
    have hsuf := QXmlStreamReader.readNextStartElement_suffix r
    have hlt := QXmlStreamReader.readNextStartElement_length_lt r
    have htrue := QXmlStreamReader.readNextStartElement_true r
    rcases hrn : r.readNextStartElement with ⟨found, r1⟩
    rw [hrn] at hsuf hlt htrue
    cases found with
    | false =>
      obtain ⟨c, hc⟩ := hsuf
      exact ⟨r1, [], c, [], by simp, by simpa using hc.symm, by simp, by simp, by simp, by simp⟩
    | true =>
      have hlen : r1.device.length < fuel := by have := hlt rfl; simp only at this; omega
      obtain ⟨pre, n, atts, hdev, htok⟩ := htrue rfl
      simp only at hdev htok
      have hname : r1.name = n := by simp [QXmlStreamReader.name, htok]
      have hatts : r1.attributes = atts := by simp [QXmlStreamReader.attributes, htok]
      simp only
      split
      · rename_i hn
        have hn' : n = "objecttype" := by rw [← hname]; simpa using hn
        subst hn'
        obtain ⟨r2, es0, c1, h1, h2, h3⟩ := readObjectTypeLoop_some (r1.device.length + 1) r1
          type.properties (Nat.lt_succ_self _)
        simp only [h1, hatts]
        obtain ⟨c2, hc2⟩ := QXmlStreamReader.skipCurrentElement_suffix r2
        have hlen2 : r2.skipCurrentElement.device.length < fuel := by
          have e1 := congrArg List.length h2
          have e2 := congrArg List.length hc2
          simp only [List.length_append] at e1 e2
          omega
        obtain ⟨r', new', pre', tail', h4, h5, hstart, h6, h7, h8⟩ := ih r2.skipCurrentElement
          { name := attributeValue atts "name",
            color := QColor.mk (attributeValue atts "color"),
            properties := type.properties.insertAll es0 }
          (cat ++ [{ name := attributeValue atts "name",
                     color := QColor.mk (attributeValue atts "color"),
                     properties := type.properties.insertAll es0 }]) hlen2
        have hc1 : c1.Sublist (Token.StartElement "objecttype" atts :: (c1 ++ c2 ++ pre')) :=
          ((List.sublist_append_left c1 c2).trans (List.sublist_append_left _ pre')).trans
            (List.sublist_cons_self _ _)
        have hself : attributeValue atts "name" ∈
            objectTypeNames (Token.StartElement "objecttype" atts :: (c1 ++ c2 ++ pre')) := by
          rw [objectTypeNames_objecttype]
          exact List.mem_cons_self _ _
        have hes0 : (es0.map Prod.fst).Sublist
            (propertyNames (Token.StartElement "objecttype" atts :: (c1 ++ c2 ++ pre'))) :=
          h3.trans (propertyNames_mono hc1)
        refine ⟨r', { name := attributeValue atts "name",
                      color := QColor.mk (attributeValue atts "color"),
                      properties := type.properties.insertAll es0 } :: new',
          pre, (Token.StartElement "objecttype" atts :: (c1 ++ c2 ++ pre')) ++ tail',
          ?_, ?_, ?_, ?_, ?_, ?_⟩
        · rw [h4, List.append_assoc]; rfl
        · rw [hdev, h2, ← hc2, h5]; simp
        · intro V hV
          rw [List.getElem?_cons_zero, Option.some.injEq] at hV
          subst hV
          exact ⟨atts, _, rfl, rfl⟩
        · rw [objectTypeNames_append, List.map_cons]
          exact (List.singleton_sublist.mpr hself).append h6
        · intro U hU
          rcases List.mem_cons.mp hU with rfl | hU
          · exact ⟨es0, rfl, hes0.trans (propertyNames_mono (List.sublist_append_left _ _))⟩
          · obtain ⟨es', h9, h10⟩ := h7 U hU
            exact ⟨es0 ++ es', by rw [h9, Properties.insertAll_append],
              keys_insertAll_sublist hes0 h10⟩
        · intro i j T U hij hT hU
          cases j with
          | zero => omega
          | succ j =>
            rw [List.getElem?_cons_succ] at hU
            have hUmem : U ∈ new' := List.getElem?_mem hU
            cases i with
            | zero =>
              rw [List.getElem?_cons_zero, Option.some.injEq] at hT
              subst hT
              obtain ⟨es', h9, h10⟩ := h7 U hUmem
              obtain ⟨V, hV⟩ : ∃ V, new'[0]? = some V := by
                cases new' with
                | nil => cases hUmem
                | cons V _ => exact ⟨V, List.getElem?_cons_zero⟩
              obtain ⟨atts', rest', ht', hVname⟩ := hstart V hV
              exact ⟨_, tail', es0, es', rfl, ⟨atts', rest', V, ht', by simpa using hV, hVname⟩,
                rfl, hes0, hself, h9, h10, h6.subset (List.mem_map_of_mem _ hUmem)⟩
            | succ i =>
              rw [List.getElem?_cons_succ] at hT
              obtain ⟨e', l', inh', red', q1, ⟨atts', rest', V, q8, q9, q10⟩, q2, q3, q4, q5,
                q6, q7⟩ := h8 i j T U (by omega) hT hU
              refine ⟨(Token.StartElement "objecttype" atts :: (c1 ++ c2 ++ pre')) ++ e', l',
                es0 ++ inh', red', by rw [q1]; simp,
                ⟨atts', rest', V, q8, by simpa using q9, q10⟩, ?_, ?_, ?_, q5, q6, q7⟩
              · rw [q2, Properties.insertAll_append]
              · exact keys_insertAll_sublist hes0 q3
              · rw [objectTypeNames_append]
                exact List.mem_append_right _ q4
      · obtain ⟨c2, hc2⟩ := QXmlStreamReader.skipCurrentElement_suffix r1
        have hlen2 : r1.skipCurrentElement.device.length < fuel := by
          have e2 := congrArg List.length hc2
          simp only [List.length_append] at e2
          omega
        obtain ⟨r', new', pre', tail', h4, h5, hstart, h6, h7, h8⟩ :=
          ih r1.skipCurrentElement type cat hlen2
        refine ⟨r', new', (pre ++ Token.StartElement n atts :: c2) ++ pre', tail', h4, ?_,
          hstart, h6, h7, h8⟩
        rw [hdev, ← hc2, h5]; simp

/-- For a file that opens, `readObjectTypes` always returns. The names of the
returned types are `name` attributes of `objecttype` start elements of the
document, in document order. For two positions `i < j` of the catalog the
document splits in front of the start tag of the type returned at position
`i + 1`: the `i`-th type's element starts before the split and its mapping is
made of entries whose keys name `property` elements before the split; the
`j`-th type's mapping is the `i`-th type's with entries inserted whose keys
name `property` elements after the split. -/
theorem readObjectTypes_some (document : Document) :
    ∃ cat mError, readObjectTypes (some document) = some (cat, mError) ∧
      (cat.map ObjectType.name).Sublist (objectTypeNames document.tokens) ∧
      (∀ (i j : Nat) (T U : ObjectType), i < j → cat[i]? = some T → cat[j]? = some U →
        ∃ earlier later inherited redefined, document.tokens = earlier ++ later ∧
          (∃ atts rest V, later = Token.StartElement "objecttype" atts :: rest ∧
            cat[i + 1]? = some V ∧ V.name = attributeValue atts "name") ∧
          T.properties = Properties.empty.insertAll inherited ∧
          (inherited.map Prod.fst).Sublist (propertyNames earlier) ∧
          T.name ∈ objectTypeNames earlier ∧
          U.properties = T.properties.insertAll redefined ∧
          (redefined.map Prod.fst).Sublist (propertyNames later) ∧
          U.name ∈ objectTypeNames later) := by
  unfold readObjectTypes
  simp only
  have hsuf := QXmlStreamReader.readNextStartElement_suffix (QXmlStreamReader.ofDocument document)
  rcases hrn : (QXmlStreamReader.ofDocument document).readNextStartElement with ⟨found, r1⟩
  rw [hrn] at hsuf
  obtain ⟨c0, hc0⟩ := hsuf
  have hc0' : document.tokens = c0 ++ r1.device := hc0.symm
  simp only
  split
  · exact ⟨[], _, rfl, by simp, by simp⟩
  · obtain ⟨r', new, pre, tail, h1, h2, _, h3, _, h5⟩ :=
      readObjectTypesLoop_some (r1.device.length + 1) r1 ObjectType.default []
        (Nat.lt_succ_self _)
    simp only [h1, List.nil_append]
    have hsub : (new.map ObjectType.name).Sublist (objectTypeNames document.tokens) := by
      rw [hc0', h2]
      exact h3.trans (objectTypeNames_mono
        (((List.sublist_append_left _ _).trans (List.sublist_append_right _ _)).trans
          (List.sublist_append_right _ _)))
    have hpair : ∀ (i j : Nat) (T U : ObjectType), i < j → new[i]? = some T →
        new[j]? = some U →
        ∃ earlier later inherited redefined, document.tokens = earlier ++ later ∧
          (∃ atts rest V, later = Token.StartElement "objecttype" atts :: rest ∧
            new[i + 1]? = some V ∧ V.name = attributeValue atts "name") ∧
          T.properties = Properties.empty.insertAll inherited ∧
          (inherited.map Prod.fst).Sublist (propertyNames earlier) ∧
          T.name ∈ objectTypeNames earlier ∧
          U.properties = T.properties.insertAll redefined ∧
          (redefined.map Prod.fst).Sublist (propertyNames later) ∧
          U.name ∈ objectTypeNames later := by
      intro i j T U hij hT hU
      obtain ⟨e, l, inh, red, q1, ⟨atts, rest, V, q8, q9, q10⟩, q2, q3, q4, q5, q6, q7⟩ :=
        h5 i j T U hij hT hU
      refine ⟨c0 ++ (pre ++ e), l ++ r'.device, inh, red, ?_,
        ⟨atts, rest ++ r'.device, V, by rw [q8]; rfl, q9, q10⟩, q2, ?_, ?_, q5, ?_, ?_⟩
      · rw [hc0', h2, q1]; simp
      · exact q3.trans (propertyNames_mono
          ((List.sublist_append_right _ _).trans (List.sublist_append_right _ _)))
      · exact (objectTypeNames_mono
          ((List.sublist_append_right _ _).trans (List.sublist_append_right _ _))).subset q4
      · exact q6.trans (propertyNames_mono (List.sublist_append_left _ _))
      · exact (objectTypeNames_mono (List.sublist_append_left _ _)).subset q7
    split
    · exact ⟨new, _, rfl, hsub, hpair⟩
    · exact ⟨new, _, rfl, hsub, hpair⟩

theorem readNextStartElementFrom_token (r : QXmlStreamReader) (ts : List Token)
    (h : (QXmlStreamReader.readNextStartElementFrom r ts).1 = true) :
    (QXmlStreamReader.readNextStartElementFrom r ts).2.token = ts.find? Token.startsElement := by
  induction ts with
  | nil => simp [QXmlStreamReader.readNextStartElementFrom] at h
  | cons t rest ih =>
    cases t
    case StartElement n atts =>
      simp [QXmlStreamReader.readNextStartElementFrom, Token.startsElement]
    case EndElement n => simp [QXmlStreamReader.readNextStartElementFrom] at h
    all_goals
      simp only [QXmlStreamReader.readNextStartElementFrom] at h ⊢
      simp only [List.find?_cons, Token.startsElement]
      exact ih h

/-! ## Properties of `readObjectTypes` -/

/-- C7. When the file cannot be opened, or the document has no start element,
or its first start element is not named `objecttypes`, `readObjectTypes`
returns the empty catalog and leaves a non-empty error string, whatever the
rest of the document holds. -/
theorem readObjectTypes_fails_early (file : Option Document)
    (h : file = none ∨ ∃ d, file = some d ∧
      ((∀ t ∈ d.tokens, t.startsElement = false) ∨
        ∃ n atts, d.tokens.find? Token.startsElement = some (Token.StartElement n atts) ∧
          n ≠ "objecttypes")) :
    ∃ mError, readObjectTypes file = some ([], mError) ∧ mError ≠ "" := by
  rcases h with rfl | ⟨d, rfl, h⟩
  · exact ⟨"Could not open file.", rfl, by decide⟩
  · refine ⟨"File doesn't contain object types.", ?_, by decide⟩
    unfold readObjectTypes
    simp only
    have htok := readNextStartElementFrom_token (QXmlStreamReader.ofDocument d) d.tokens
    have hrn : (QXmlStreamReader.ofDocument d).readNextStartElement =
        QXmlStreamReader.readNextStartElementFrom (QXmlStreamReader.ofDocument d) d.tokens := by
      simp [QXmlStreamReader.readNextStartElement, QXmlStreamReader.ofDocument]
    rw [hrn]
    rcases hres : QXmlStreamReader.readNextStartElementFrom (QXmlStreamReader.ofDocument d)
      d.tokens with ⟨found, r1⟩
    rw [hres] at htok
    cases found with
    | false => simp [translate]
    | true =>
      have htok' : r1.token = d.tokens.find? Token.startsElement := htok rfl
      rcases h with h | ⟨n, atts, hfind, hn⟩
      · have : d.tokens.find? Token.startsElement = none := by
          rw [List.find?_eq_none]
          intro t ht
          simp [h t ht]
        rw [this] at htok'
        simp [QXmlStreamReader.name, htok', translate]
      · rw [hfind] at htok'
        simp [QXmlStreamReader.name, htok', translate, hn]

/-- C7 at a concrete input: a document whose root element is `map`. -/
theorem readObjectTypes_fails_early_witness :
    ∃ mError, readObjectTypes (some ⟨[Token.StartDocument, Token.StartElement "map" [],
        Token.StartElement "objecttypes" [], Token.EndElement "objecttypes",
        Token.EndElement "map", Token.EndDocument], "Premature end of document.", 1, 1⟩) =
      some ([], mError) ∧ mError ≠ "" :=
  readObjectTypes_fails_early _
    (Or.inr ⟨_, rfl, Or.inr ⟨"map", [], by decide, by decide⟩⟩)

/-- C8 (counterexample). A well-formed document with two `objecttype`
elements named `A` is read into a catalog with two types named `A`. -/
theorem readObjectTypes_duplicate_names :
    ∃ cat mError,
      readObjectTypes (some ⟨[Token.StartDocument, Token.StartElement "objecttypes" [],
        Token.StartElement "objecttype" [("name", "A"), ("color", "#ff0000")],
        Token.StartElement "properties" [],
        Token.StartElement "property" [("name", "hp"), ("value", "10")],
        Token.EndElement "property", Token.EndElement "properties",
        Token.EndElement "objecttype",
        Token.StartElement "objecttype" [("name", "A"), ("color", "#00ff00")],
        Token.StartElement "properties" [],
        Token.StartElement "property" [("name", "mp"), ("value", "5")],
        Token.EndElement "property", Token.EndElement "properties",
        Token.EndElement "objecttype",
        Token.EndElement "objecttypes", Token.EndDocument],
        "Premature end of document.", 1, 1⟩) = some (cat, mError) ∧
      ¬ (cat.map ObjectType.name).Nodup :=
  ⟨[⟨"A", ⟨"#ff0000"⟩, ⟨[("hp", "10")]⟩⟩, ⟨"A", ⟨"#00ff00"⟩, ⟨[("hp", "10"), ("mp", "5")]⟩⟩],
    "", by decide, by decide⟩

/-- C8 (amended). `readObjectTypes` returns a catalog for every file, and
when the `objecttype` start elements of the document carry pairwise distinct
`name` attributes, no two types of the returned catalog have the same name. -/
theorem readObjectTypes_names_nodup (file : Option Document)
    (h : ∀ d, file = some d → (objectTypeNames d.tokens).Nodup) :
    ∃ cat mError, readObjectTypes file = some (cat, mError) ∧
      (cat.map ObjectType.name).Nodup := by
  cases file with
  | none => exact ⟨[], _, rfl, List.nodup_nil⟩
  | some d =>
    obtain ⟨cat, mError, h1, h2, _⟩ := readObjectTypes_some d
    exact ⟨cat, mError, h1, (h d rfl).sublist h2⟩

/-- C8 (amended) at a concrete input: a document with the types `A` and
`B`. -/
theorem readObjectTypes_names_nodup_witness :
    ∃ cat mError,
      readObjectTypes (some ⟨[Token.StartDocument, Token.StartElement "objecttypes" [],
        Token.StartElement "objecttype" [("name", "A"), ("color", "#ff0000")],
        Token.StartElement "properties" [],
        Token.StartElement "property" [("name", "hp"), ("value", "10")],
        Token.EndElement "property", Token.EndElement "properties",
        Token.EndElement "objecttype",
        Token.StartElement "objecttype" [("name", "B"), ("color", "#00ff00")],
        Token.EndElement "objecttype",
        Token.EndElement "objecttypes", Token.EndDocument],
        "Premature end of document.", 1, 1⟩) = some (cat, mError) ∧
      (cat.map ObjectType.name).Nodup :=
  readObjectTypes_names_nodup _ (fun d hd => by
    cases hd
    decide)

/-- C1 (failing input). The catalog `[A {hp: 10}, B {}]` is written and read
back as `[A {hp: 10}, B {hp: 10}]`: the second type comes back with a property
it does not have. The catalog `[A {}, B {}]` is read back as `[A {}]`: the
second type is missing. -/
theorem write_then_read_differs :
    (readObjectTypes
      ((writeObjectTypes true none
        [⟨"A", ⟨"#ff0000"⟩, ⟨[("hp", "10")]⟩⟩, ⟨"B", ⟨"#00ff00"⟩, ⟨[]⟩⟩]).file.map
        (fun tokens => ⟨tokens, "Premature end of document.", 10, 0⟩))).map Prod.fst =
      some [⟨"A", ⟨"#ff0000"⟩, ⟨[("hp", "10")]⟩⟩, ⟨"B", ⟨"#00ff00"⟩, ⟨[("hp", "10")]⟩⟩] ∧
    (readObjectTypes
      ((writeObjectTypes true none
        [⟨"A", ⟨"#ff0000"⟩, ⟨[]⟩⟩, ⟨"B", ⟨"#00ff00"⟩, ⟨[]⟩⟩]).file.map
        (fun tokens => ⟨tokens, "Premature end of document.", 5, 0⟩))).map Prod.fst =
      some [⟨"A", ⟨"#ff0000"⟩, ⟨[]⟩⟩] := by
  decide

/-- C9 (failing input). A well-formed document is read as `[A {hp: 10}]`; with
an empty element `foo` inserted as the first child of the `objecttype`
element it is read as `[A {}]`, without an error. -/
theorem unknown_child_of_objecttype_hides_properties :
    readObjectTypes (some ⟨[Token.StartDocument, Token.StartElement "objecttypes" [],
      Token.StartElement "objecttype" [("name", "A"), ("color", "#ff0000")],
      Token.StartElement "properties" [],
      Token.StartElement "property" [("name", "hp"), ("value", "10")],
      Token.EndElement "property", Token.EndElement "properties",
      Token.EndElement "objecttype", Token.EndElement "objecttypes", Token.EndDocument],
      "Premature end of document.", 1, 1⟩) =
      some ([⟨"A", ⟨"#ff0000"⟩, ⟨[("hp", "10")]⟩⟩], "") ∧
    readObjectTypes (some ⟨[Token.StartDocument, Token.StartElement "objecttypes" [],
      Token.StartElement "objecttype" [("name", "A"), ("color", "#ff0000")],
      Token.StartElement "foo" [], Token.EndElement "foo",
      Token.StartElement "properties" [],
      Token.StartElement "property" [("name", "hp"), ("value", "10")],
      Token.EndElement "property", Token.EndElement "properties",
      Token.EndElement "objecttype", Token.EndElement "objecttypes", Token.EndDocument],
      "Premature end of document.", 1, 1⟩) =
      some ([⟨"A", ⟨"#ff0000"⟩, ⟨[]⟩⟩], "") := by
  decide

end Tiled
